import Mathlib

/-
  Verification development for the simple-git-express repository.

  Shallow embedding of the core data model and operations:
  * `parseDiffSummary` (src/services/legacyServices.ts) — the diff-stat parser,
    including a faithful model of its two regular expressions;
  * the legacy Mongo-backed service (`registerRepository`,
    `checkRepositoryStatus`, `fetchCommits`) over an explicit store;
  * the sqlite sync ledger and the delivery flow of
    `SyncUnsyncedCommitsController` (src/controllers/auth.controller.ts);
  * the session lifecycle (`checkAndRefreshSession` in src/utils/checkSession.ts
    and the scheduler tick in src/jobs/scheduler.ts).

  External effects (filesystem probes, git subprocess output, the remote
  backend) are passed in as explicit oracle values; machine time is an
  explicit `Int` parameter (milliseconds, as in JS `Date.getTime`).
-/

namespace SGE

/-! ### Diff-summary parser (legacyServices.ts, `parseDiffSummary`)

The TS code matches each line against
`/(\d+)\s+file[s]?\schanged(?:,\s+(\d+)\s+insertion[s]?\(\+\))?(?:,\s+(\d+)\s+deletion[s]?\(\-\))?/`
and, failing that, against `/^(.+?)\s+\|\s+\d+/`.  The matchers below are a
deterministic rendering of those two regexes: every character class involved
(digits, whitespace, the literals) is disjoint from its neighbour, so greedy
maximal-munch with the two-character lookahead for `[s]?` is equivalent to
the backtracking semantics of the JS engine. -/

structure CommitStats where
  filesChanged : Nat
  insertions : Nat
  deletions : Nat
  fileNames : List String
deriving Repr, DecidableEq

/-- Strip an expected literal off the front of the input, or fail. -/
def stripLit : List Char → List Char → Option (List Char)
  | [], cs => some cs
  | _ :: _, [] => none
  | l :: ls, c :: cs => if c = l then stripLit ls cs else none

/-- Maximal run of decimal digits, accumulating the parsed value
(JS `parseInt(_, 10)` on a pure digit string). -/
def takeDigitsAux : List Char → Nat → Nat × List Char
  | [], n => (n, [])
  | c :: cs, n =>
    if c.isDigit then takeDigitsAux cs (10 * n + (c.toNat - '0'.toNat)) else (n, c :: cs)

/-- Model of `(\d+)`: at least one digit, greedy. -/
def takeDigits : List Char → Option (Nat × List Char)
  | [] => none
  | c :: cs => if c.isDigit then some (takeDigitsAux (c :: cs) 0) else none

def dropWs : List Char → List Char
  | [] => []
  | c :: cs => if c.isWhitespace then dropWs cs else c :: cs

/-- Model of `\s+`: at least one whitespace character, greedy. -/
def takeWs1 : List Char → Option (List Char)
  | [] => none
  | c :: cs => if c.isWhitespace then some (dropWs cs) else none

/-- Model of `[s]?\schanged` (the tail of `file[s]?\schanged`): an optional
`s`, then exactly one whitespace character, then the literal `changed`. -/
def matchSChanged : List Char → Option (List Char)
  | 's' :: c :: cs => if c.isWhitespace then stripLit "changed".toList cs else none
  | c :: cs => if c.isWhitespace then stripLit "changed".toList cs else none
  | [] => none

/-- Model of `[s]?\(\+\)` after the literal `insertion`. -/
def matchParenPlus : List Char → Option (List Char)
  | 's' :: cs => stripLit "(+)".toList cs
  | cs => stripLit "(+)".toList cs

/-- Model of `[s]?\(\-\)` after the literal `deletion`. -/
def matchParenMinus : List Char → Option (List Char)
  | 's' :: cs => stripLit "(-)".toList cs
  | cs => stripLit "(-)".toList cs

/-- Model of the optional group `(?:,\s+(\d+)\s+insertion[s]?\(\+\))?`. -/
def matchInsGroup (cs : List Char) : Option (Nat × List Char) := do
  let cs1 ← stripLit [','] cs
  let cs2 ← takeWs1 cs1
  let (n, cs3) ← takeDigits cs2
  let cs4 ← takeWs1 cs3
  let cs5 ← stripLit "insertion".toList cs4
  let cs6 ← matchParenPlus cs5
  pure (n, cs6)

/-- Model of the optional group `(?:,\s+(\d+)\s+deletion[s]?\(\-\))?`. -/
def matchDelGroup (cs : List Char) : Option (Nat × List Char) := do
  let cs1 ← stripLit [','] cs
  let cs2 ← takeWs1 cs1
  let (n, cs3) ← takeDigits cs2
  let cs4 ← takeWs1 cs3
  let cs5 ← stripLit "deletion".toList cs4
  let cs6 ← matchParenMinus cs5
  pure (n, cs6)

/-- Attempt the aggregate-summary regex at one start position.  On success,
returns the three capture groups: file count, optional insertion count,
optional deletion count (the two trailing groups are independently optional,
exactly as in the regex). -/
def matchSummaryAt (cs : List Char) : Option (Nat × Option Nat × Option Nat) := do
  let (n, cs1) ← takeDigits cs
  let cs2 ← takeWs1 cs1
  let cs3 ← stripLit "file".toList cs2
  let cs4 ← matchSChanged cs3
  let (oi, cs5) :=
    match matchInsGroup cs4 with
    | some (k, r) => (some k, r)
    | none => (none, cs4)
  let (od, _cs6) :=
    match matchDelGroup cs5 with
    | some (k, r) => (some k, r)
    | none => (none, cs5)
  pure (n, oi, od)

/-- Unanchored scan of the aggregate-summary regex (JS `String.match` tries
each start position left to right). -/
def findSummary : List Char → Option (Nat × Option Nat × Option Nat)
  | [] => none
  | c :: cs =>
    match matchSummaryAt (c :: cs) with
    | some r => some r
    | none => findSummary cs

/-- Model of `\s+\|\s+\d+` — the part of the per-file-line regex after the
lazy capture group. -/
def matchFileTail (cs : List Char) : Bool :=
  (do
    let cs1 ← takeWs1 cs
    let cs2 ← stripLit ['|'] cs1
    let cs3 ← takeWs1 cs2
    let (_, _) ← takeDigits cs3
    pure ()).isSome

/-- Model of `^(.+?)\s+\|\s+\d+`: the lazy group takes the shortest non-empty
prefix whose remainder matches the tail; returns the capture group. -/
def findFileName (pre : List Char) : List Char → Option (List Char)
  | [] => none
  | c :: cs =>
    if matchFileTail cs then some (pre ++ [c]) else findFileName (pre ++ [c]) cs

/-- JS `diffOutput.split('\n')`, over the character list (`''.split('\n')`
is `['']`, and a trailing newline yields a final empty line). -/
def splitNlAux (acc : List Char) : List Char → List (List Char)
  | [] => [acc.reverse]
  | c :: cs => if c = '\n' then acc.reverse :: splitNlAux [] cs else splitNlAux (c :: acc) cs

def splitLines (s : String) : List (List Char) := splitNlAux [] s.toList

/-- JS `String.trim`: strip leading and trailing whitespace. -/
def trimChars (cs : List Char) : List Char :=
  ((cs.dropWhile Char.isWhitespace).reverse.dropWhile Char.isWhitespace).reverse

/-- One iteration of the `lines.forEach` body: an aggregate match overwrites
all three counters (absent capture groups default to 0); otherwise a per-file
match appends the trimmed capture to the file-name list; otherwise the line
is ignored. -/
def parseDiffLine (acc : CommitStats) (line : List Char) : CommitStats :=
  match findSummary line with
  | some (f, oi, od) =>
    { acc with filesChanged := f, insertions := oi.getD 0, deletions := od.getD 0 }
  | none =>
    match findFileName [] line with
    | some name => { acc with fileNames := acc.fileNames ++ [String.mk (trimChars name)] }
    | none => acc

/-- `parseDiffSummary` of legacyServices.ts: fold the per-line step over the
split input, beginning from all-zero statistics. -/
def parseDiffSummary (diffOutput : String) : CommitStats :=
  (splitLines diffOutput).foldl parseDiffLine ⟨0, 0, 0, []⟩

/-! ### Data model (src/models/index.ts, src/services/interfaces.ts)

Documents are modelled as plain records; Mongo ObjectIds become `Nat`,
`Date` values become `Int` milliseconds.  The `repoFingerprint` field is
declared (and required) by the current `RepositorySchema` but is never set
by the legacy service, hence `Option`. -/

def exceptDecEq {ε α : Type} [DecidableEq ε] [DecidableEq α] :
    (a b : Except ε α) → Decidable (a = b)
  | .error x, .error y =>
    match decEq x y with
    | isTrue h => isTrue (h ▸ rfl)
    | isFalse h => isFalse (fun hh => h (Except.error.inj hh))
  | .error _, .ok _ => isFalse (fun hh => Except.noConfusion hh)
  | .ok _, .error _ => isFalse (fun hh => Except.noConfusion hh)
  | .ok x, .ok y =>
    match decEq x y with
    | isTrue h => isTrue (h ▸ rfl)
    | isFalse h => isFalse (fun hh => h (Except.ok.inj hh))

instance {ε α : Type} [DecidableEq ε] [DecidableEq α] : DecidableEq (Except ε α) :=
  exceptDecEq

inductive RepoStatus
  | active
  | missing
  | moved
  | deleted
deriving Repr, DecidableEq

inductive Permission
  | read
  | readWrite
deriving Repr, DecidableEq

structure Repository where
  id : Nat
  name : String
  description : Option String
  path : String
  permission : Permission
  status : RepoStatus
  repoFingerprint : Option String
  lastSyncedAt : Option Int
  createdAt : Int
  updatedAt : Int
deriving Repr, DecidableEq

/-- A `GitData` document as created by the legacy `fetchCommits`. -/
structure GitDataRec where
  repoId : Nat
  commitHash : String
  message : String
  date : Int
  filesChanged : Nat
  insertions : Nat
  deletions : Nat
  branch : String
  fileNames : List String
  pullCount : Nat
  createdAt : Int
  synced : Bool
deriving Repr, DecidableEq

/-- The Mongo store: the `Repository` collection and the `GitData` ledger. -/
structure MongoDb where
  repos : List Repository
  gitData : List GitDataRec
deriving Repr, DecidableEq

def findRepo (db : MongoDb) (rid : Nat) : Option Repository :=
  db.repos.find? (fun r => r.id == rid)

/-- Persist a repository document: replace the stored record with the same id. -/
def saveRepo (db : MongoDb) (r : Repository) : MongoDb :=
  { db with repos := db.repos.map (fun x => if x.id == r.id then r else x) }

/-! ### Filesystem / git probe oracle

`fs.access` throws with `code === 'ENOENT'` when the path is gone;
`git.revparse(['--is-inside-work-tree'])` throws a `not a git repository`
error when no VCS metadata is found.  `fingerprint` names the identity of
whatever repository currently occupies the path — the legacy probe never
reads it, which is exactly what claim C3 is about. -/

structure FsState where
  accessible : Bool
  isGitRepo : Bool
  fingerprint : String

inductive ProbeOutcome
  | success
  | errEnoent
  | errNotGitRepo
  | errOther
deriving Repr, DecidableEq

def probeOf (fs : FsState) : ProbeOutcome :=
  if !fs.accessible then .errEnoent
  else if !fs.isGitRepo then .errNotGitRepo
  else .success

/-- The catch-block of `checkRepositoryStatus` (legacyServices.ts:68-76):
success ⇒ `active`, `ENOENT` ⇒ `missing`, `not a git repository` ⇒
`deleted`, any other error ⇒ `moved`. -/
def statusOfProbe : ProbeOutcome → RepoStatus
  | .success => .active
  | .errEnoent => .missing
  | .errNotGitRepo => .deleted
  | .errOther => .moved

inductive ServiceError
  | repoNotFound
  | repoNotActive
  | branchNotFound
  | pathInaccessible
  | notAGitRepository
  | alreadyExists
deriving Repr, DecidableEq

/-- `checkRepositoryStatus` (legacyServices.ts:55-88): look the repository
up, recompute its status from the live probe, stamp `updatedAt` and save
the document back to the store, returning the saved document. -/
def checkRepositoryStatus (db : MongoDb) (rid : Nat) (fs : FsState) (now : Int) :
    Except ServiceError (Repository × MongoDb) :=
  match findRepo db rid with
  | none => .error .repoNotFound
  | some repo =>
    let repo' := { repo with status := statusOfProbe (probeOf fs), updatedAt := now }
    .ok (repo', saveRepo db repo')

structure RegisterRepoInput where
  name : String
  description : Option String
  path : String
  permission : Permission
deriving Repr, DecidableEq

/-- `registerRepository` (legacyServices.ts:10-52): validate the path
(`fs.access`, then `revparse`), reject a path that already has a record,
otherwise insert a fresh document with status `active`. -/
def registerRepository (db : MongoDb) (input : RegisterRepoInput) (fs : FsState)
    (now : Int) (newId : Nat) : Except ServiceError (Repository × MongoDb) :=
  if !fs.accessible then .error .pathInaccessible
  else if !fs.isGitRepo then .error .notAGitRepository
  else if db.repos.any (fun r => r.path == input.path) then .error .alreadyExists
  else
    let repo : Repository :=
      { id := newId, name := input.name, description := input.description,
        path := input.path, permission := input.permission, status := .active,
        repoFingerprint := none, lastSyncedAt := none, createdAt := now, updatedAt := now }
    .ok (repo, { db with repos := db.repos ++ [repo] })

structure UpdateRepoInput where
  name : Option String
  description : Option String
  path : Option String
deriving Repr, DecidableEq

def applyUpdate (u : UpdateRepoInput) (r : Repository) : Repository :=
  { r with
    name := u.name.getD r.name,
    description := match u.description with | some d => some d | none => r.description,
    path := u.path.getD r.path }

/-- The `PUT /repositories/:id` route handler: `findByIdAndUpdate` with the
validated `{name?, description?, path?}` payload — no path-uniqueness check. -/
def updateRepository (db : MongoDb) (rid : Nat) (u : UpdateRepoInput) :
    Except ServiceError (Repository × MongoDb) :=
  match findRepo db rid with
  | none => .error .repoNotFound
  | some r =>
    let r' := applyUpdate u r
    .ok (r', saveRepo db r')

/-! ### Commit extraction (legacyServices.ts, `fetchCommits`)

The git subprocess is an oracle: `logAll` / `logBranch b` list the commits
reported by `git log --stat --author=<user> [--all | b]` in log order
(author filtering happens inside git, so the oracle lists are already
author-filtered); `diffOf h` is the text of `git show h --stat`;
`branchesContaining h` is `git branch --contains h`; `branches` is
`git branch -a` (trimmed); `userName` is `git config user.name` (trimmed).
`--since=<t>` is modelled as keeping the commits whose commit date is at or
after `t` (git treats the boundary inclusively). -/

structure GitCommit where
  hash : String
  message : String
  date : Int
deriving Repr, DecidableEq

structure GitRepoState where
  logAll : List GitCommit
  logBranch : String → List GitCommit
  branches : List String
  branchesContaining : String → List String
  diffOf : String → String
  userName : String

def branchOk (g : GitRepoState) : Option String → Bool
  | none => true
  | some b => g.branches.contains b

def logFor (g : GitRepoState) : Option String → List GitCommit
  | none => g.logAll
  | some b => g.logBranch b

def sinceFilter : Option Int → List GitCommit → List GitCommit
  | none, l => l
  | some t, l => l.filter (fun c => t ≤ c.date)

/-- The existing-commit lookup `GitDataModel.findOne
{repoId, commitHash}` (legacyServices.ts:146-149). -/
def ledgerHas (ledger : List GitDataRec) (rid : Nat) (h : String) : Bool :=
  ledger.any (fun r => r.repoId == rid && r.commitHash == h)

/-- Build the new `GitDataModel` document (legacyServices.ts:166-180):
stats from `parseDiffSummary (git show <hash> --stat)`, branch attribution
from the caller-supplied branch or `git branch --contains` (first entry,
`'unknown'` fallback), `pullCount` 0, and — as written in the source —
`synced: true`. -/
def mkGitDataRec (rid : Nat) (g : GitRepoState) (branch : Option String)
    (now : Int) (c : GitCommit) : GitDataRec :=
  let stats := parseDiffSummary (g.diffOf c.hash)
  { repoId := rid,
    commitHash := c.hash,
    message := c.message,
    date := c.date,
    filesChanged := stats.filesChanged,
    insertions := stats.insertions,
    deletions := stats.deletions,
    branch := match branch with
      | some b => b
      | none => ((g.branchesContaining c.hash).head?).getD "unknown",
    fileNames := stats.fileNames,
    pullCount := 0,
    createdAt := now,
    synced := true }

/-- The `for (const commit of log.all)` loop (legacyServices.ts:145-187):
skip commits already in the ledger for this repository, save every other
one, collecting the newly created documents in order. -/
def extractLoop (rid : Nat) (g : GitRepoState) (branch : Option String) (now : Int) :
    List GitCommit → List GitDataRec → List GitDataRec × List GitDataRec
  | [], ledger => ([], ledger)
  | c :: cs, ledger =>
    if ledgerHas ledger rid c.hash then
      extractLoop rid g branch now cs ledger
    else
      let r := mkGitDataRec rid g branch now c
      let res := extractLoop rid g branch now cs (ledger ++ [r])
      (r :: res.1, res.2)

/-- Stable insertion step for date-descending order. -/
def insertByDateDesc (r : GitDataRec) : List GitDataRec → List GitDataRec
  | [] => [r]
  | x :: xs => if x.date < r.date then r :: x :: xs else x :: insertByDateDesc r xs

/-- Stable sort by date descending (the `.sort({date: -1})` of the query). -/
def sortByDateDesc : List GitDataRec → List GitDataRec
  | [] => []
  | x :: xs => insertByDateDesc x (sortByDateDesc xs)

/-- The response query (legacyServices.ts:193-197): all stored commits for
the repository (and branch, when given), sorted by date descending. -/
def dbCommitsFor (ledger : List GitDataRec) (rid : Nat) (branch : Option String) :
    List GitDataRec :=
  let base : List GitDataRec := match branch with
    | some b => ledger.filter (fun r => r.repoId == rid && r.branch == b)
    | none => ledger.filter (fun r => r.repoId == rid)
  sortByDateDesc base

def pluralS (n : Int) : String := if n > 1 then "s" else ""

/-- `formatTimeSince` (legacyServices.ts:253-265). -/
def formatTimeSince (date : Int) (now : Int) : String :=
  let diffMs := now - date
  let seconds := Int.fdiv diffMs 1000
  let minutes := Int.fdiv seconds 60
  let hours := Int.fdiv minutes 60
  let days := Int.fdiv hours 24
  if days > 0 then toString days ++ " day" ++ pluralS days ++ " ago"
  else if hours > 0 then toString hours ++ " hour" ++ pluralS hours ++ " ago"
  else if minutes > 0 then toString minutes ++ " minute" ++ pluralS minutes ++ " ago"
  else toString seconds ++ " second" ++ pluralS seconds ++ " ago"

structure FetchResult where
  newCommits : List GitDataRec
  allCommits : List GitDataRec
  totalCommits : Nat
  lastSyncedAt : Option Int
  timeSinceLastSync : String
  gitUserName : String
deriving Repr, DecidableEq

/-- `fetchCommits` (legacyServices.ts:90-217): look the repository up, rerun
the status probe (which saves), refuse non-active repositories, validate a
requested branch against `git branch -a`, list candidate commits since the
watermark, run the extraction loop, then stamp `updatedAt` and advance
`lastSyncedAt` to the current time and save. -/
def fetchCommits (db : MongoDb) (rid : Nat) (branch : Option String)
    (fs : FsState) (g : GitRepoState) (now : Int) :
    Except ServiceError (FetchResult × MongoDb) :=
  match findRepo db rid with
  | none => .error .repoNotFound
  | some repo =>
    match checkRepositoryStatus db rid fs now with
    | .error e => .error e
    | .ok (rs, db1) =>
      if rs.status = RepoStatus.active then
        if branchOk g branch then
          let log := sinceFilter repo.lastSyncedAt (logFor g branch)
          let pr := extractLoop rid g branch now log db1.gitData
          let allCommits := dbCommitsFor pr.2 rid branch
          let timeSince := match repo.lastSyncedAt with
            | some d => formatTimeSince d now
            | none => "never synced"
          let repo' := { rs with updatedAt := now, lastSyncedAt := some now }
          let db2 := saveRepo { db1 with gitData := pr.2 } repo'
          .ok ({ newCommits := pr.1,
                 allCommits := allCommits,
                 totalCommits := allCommits.length,
                 lastSyncedAt := some now,
                 timeSinceLastSync := timeSince,
                 gitUserName := g.userName }, db2)
        else .error .branchNotFound
      else .error .repoNotActive

/-! ### Session lifecycle (src/utils/checkSession.ts, src/jobs/scheduler.ts)

The sqlite singleton session row; timestamps are `Int` milliseconds as
produced by `Date.getTime()`.  The refresh endpoint plus the subsequent
`checkToken` introspection are one oracle value: `RefreshOutcome.ok tok exp`
stands for a refresh call that returned `access_token = tok` whose
introspected expiry is `exp`; `RefreshOutcome.fail` stands for any failure
of that pair of calls (network error, auth error, introspection error). -/

structure Session where
  userId : String
  accessToken : String
  accessTokenExpiresAt : Int
  refreshToken : String
  refreshTokenExpiresAt : Int
deriving Repr, DecidableEq

structure ValidSession where
  userId : String
  accessToken : String
deriving Repr, DecidableEq

inductive RefreshOutcome
  | ok (newAccessToken : String) (newAccessExpiry : Int)
  | fail
deriving Repr, DecidableEq

inductive SessionError
  | noSession
  | sessionExpired
  | refreshFailed
deriving Repr, DecidableEq

structure SessionCheckResult where
  result : Except SessionError ValidSession
  stored : Option Session
  refreshCalls : Nat
deriving Repr, DecidableEq

/-- `checkAndRefreshSession` (checkSession.ts:21-79).  `stored` is the
singleton row (`SELECT * FROM session WHERE id = 1`); the returned `stored`
is the row after the call; `refreshCalls` counts outbound refresh attempts.
On refresh success the row is updated by
`UPDATE session SET accessToken = ?, accessTokenExpiresAt = ? WHERE id = ?`. -/
def checkAndRefreshSession (stored : Option Session) (now : Int)
    (api : RefreshOutcome) : SessionCheckResult :=
  match stored with
  | none => ⟨.error .noSession, none, 0⟩
  | some s =>
    if s.accessTokenExpiresAt ≤ now then
      if s.refreshTokenExpiresAt ≤ now then
        ⟨.error .sessionExpired, some s, 0⟩
      else
        match api with
        | .ok tok exp =>
          ⟨.ok ⟨s.userId, tok⟩,
           some { s with accessToken := tok, accessTokenExpiresAt := exp }, 1⟩
        | .fail => ⟨.error .refreshFailed, some s, 1⟩
    else ⟨.ok ⟨s.userId, s.accessToken⟩, some s, 0⟩

/-- One tick of the background cadence (scheduler.ts:16-87): same expiry
checks and the same two-column UPDATE; every failure is logged and
swallowed, so the function returns only the stored row after the tick and
the number of refresh attempts. -/
def schedulerTick (stored : Option Session) (now : Int) (api : RefreshOutcome) :
    Option Session × Nat :=
  match stored with
  | none => (none, 0)
  | some s =>
    if s.accessTokenExpiresAt ≤ now then
      if s.refreshTokenExpiresAt ≤ now then (some s, 0)
      else
        match api with
        | .ok tok exp =>
          (some { s with accessToken := tok, accessTokenExpiresAt := exp }, 1)
        | .fail => (some s, 1)
    else (some s, 0)

/-! ### Sync ledger and delivery flow
(src/config/git.db.ts, src/controllers/auth.controller.ts)

Rows of the sqlite `git_commits` table.  `stats` and `changes` stay as the
JSON strings the table stores. -/

structure LedgerCommit where
  id : Nat
  repoId : String
  developerId : String
  projectId : String
  branch : String
  message : String
  commitHash : String
  timestamp : Int
  stats : String
  changes : String
  parentCommit : Option String
  createdAt : Int
  synced : Bool
deriving Repr, DecidableEq

/-- Modelled from the spec: `GitServices.getUnsyncedCommits` is not under
src/ (only its caller `SyncUnsyncedCommitsController` is).  Spec §4.3:
"`unsyncedFor(scope)` — returns every record with `synced = false` for a
given repository/owner scope, in a stable order (insertion order)". -/
def getUnsyncedCommits (db : List LedgerCommit) (repoId developerId : String) :
    List LedgerCommit :=
  db.filter (fun c => c.repoId == repoId && c.developerId == developerId && c.synced == false)

/-- Modelled from the spec: `GitServices.markCommitsAsSynced` is not under
src/ (only its caller `SyncUnsyncedCommitsController` is, which passes just
`(repoId, session.userId)`).  Spec §4.3: "`markSynced(scope)` — transitions
every currently-unsynced record in scope to `synced` ... Returns the count
mutated." -/
def markCommitsAsSynced (db : List LedgerCommit) (repoId developerId : String) :
    Nat × List LedgerCommit :=
  ((getUnsyncedCommits db repoId developerId).length,
   db.map (fun c =>
     if c.repoId == repoId && c.developerId == developerId && c.synced == false then
       { c with synced := true }
     else c))

/-- The delivery flow of `SyncUnsyncedCommitsController`
(auth.controller.ts:365-418) with an extraction run interleaved between the
read and the mark step: read the unsynced set, deliver it (the payload is
built from exactly the rows read), let the interleaved extraction insert
rows, then mark.  Returns (rows read and delivered, count marked, ledger
after). -/
def syncFlowWithInterleave (db : List LedgerCommit) (repoId developerId : String)
    (interleaved : List LedgerCommit) : List LedgerCommit × Nat × List LedgerCommit :=
  let delivered := getUnsyncedCommits db repoId developerId
  let db1 := db ++ interleaved
  let marked := markCommitsAsSynced db1 repoId developerId
  (delivered, marked.1, marked.2)

/-- The repository document as saved by the status probe inside a
successful `fetchCommits` run (status recomputed to `active`, `updatedAt`
stamped). -/
def probedRepo (repo : Repository) (now : Int) : Repository :=
  { repo with status := RepoStatus.active, updatedAt := now }

/-- The repository document as saved at the end of a successful
`fetchCommits` run: the watermark `lastSyncedAt` is advanced to `now`. -/
def syncedRepo (repo : Repository) (now : Int) : Repository :=
  { repo with status := RepoStatus.active, updatedAt := now, lastSyncedAt := some now }

/-! ### Concrete fixtures used by the closed witness theorems -/

def repoW : Repository :=
  { id := 1, name := "r", description := none, path := "p", permission := .read,
    status := .active, repoFingerprint := none, lastSyncedAt := none,
    createdAt := 0, updatedAt := 0 }

def fsW : FsState := ⟨true, true, "fp"⟩

def gW : GitRepoState :=
  { logAll := [⟨"h1", "m", 3⟩], logBranch := fun _ => [], branches := ["main"],
    branchesContaining := fun _ => ["main"], diffOf := fun _ => "", userName := "u" }

def dbW : MongoDb := ⟨[repoW], []⟩

def recW : GitDataRec :=
  { repoId := 1, commitHash := "h1", message := "m", date := 3, filesChanged := 0,
    insertions := 0, deletions := 0, branch := "main", fileNames := [], pullCount := 0,
    createdAt := 5, synced := true }

def res1W : FetchResult :=
  { newCommits := [recW], allCommits := [recW], totalCommits := 1,
    lastSyncedAt := some 5, timeSinceLastSync := "never synced", gitUserName := "u" }

def db1W : MongoDb := ⟨[syncedRepo repoW 5], [recW]⟩

def ledW : LedgerCommit :=
  { id := 1, repoId := "r1", developerId := "d1", projectId := "p1", branch := "main",
    message := "m", commitHash := "ha", timestamp := 3, stats := "", changes := "",
    parentCommit := none, createdAt := 4, synced := false }

def ledW2 : LedgerCommit :=
  { id := 2, repoId := "r1", developerId := "d1", projectId := "p1", branch := "main",
    message := "m2", commitHash := "hb", timestamp := 6, stats := "", changes := "",
    parentCommit := none, createdAt := 7, synced := false }

def repoF : Repository := { repoW with repoFingerprint := some "A" }

def dbF : MongoDb := ⟨[repoF], []⟩

def fsB : FsState := ⟨true, true, "B"⟩

def repoM : Repository := { repoW with status := .missing }

def dbM : MongoDb := ⟨[repoM], []⟩

def regIn1 : RegisterRepoInput :=
  { name := "a", description := none, path := "pa", permission := .read }

def regIn2 : RegisterRepoInput :=
  { name := "b", description := none, path := "pb", permission := .read }

def updPa : UpdateRepoInput := { name := none, description := none, path := some "pa" }

def raW : Repository :=
  { id := 1, name := "a", description := none, path := "pa", permission := .read,
    status := .active, repoFingerprint := none, lastSyncedAt := none,
    createdAt := 0, updatedAt := 0 }

def rbW : Repository := { raW with id := 2, name := "b", path := "pb" }

def rbXW : Repository := { rbW with path := "pa" }

def sessW : Session :=
  { userId := "u1", accessToken := "at", accessTokenExpiresAt := 10,
    refreshToken := "rt", refreshTokenExpiresAt := 20 }

def sNewW : Session := { sessW with accessToken := "nt", accessTokenExpiresAt := 30 }

def apiW : RefreshOutcome := .ok "nt" 30

/-! ### Helper lemmas -/

theorem ledgerHas_append_left {L T : List GitDataRec} {rid : Nat} {h : String}
    (hh : ledgerHas L rid h = true) : ledgerHas (L ++ T) rid h = true := by
  simp only [ledgerHas, List.any_append, Bool.or_eq_true]
  exact Or.inl hh

theorem extractLoop_ledger_eq (rid : Nat) (g : GitRepoState) (br : Option String)
    (now : Int) (cs : List GitCommit) (L : List GitDataRec) :
    (extractLoop rid g br now cs L).2 = L ++ (extractLoop rid g br now cs L).1 := by
  induction cs generalizing L with
  | nil => simp [extractLoop]
  | cons c cs ih =>
    by_cases hc : ledgerHas L rid c.hash
    · simpa [extractLoop, hc] using ih L
    · simp only [extractLoop, hc, Bool.false_eq_true, if_false]
      rw [ih (L ++ [mkGitDataRec rid g br now c])]
      simp

theorem extractLoop_new_mem {rid : Nat} {g : GitRepoState} {br : Option String}
    {now : Int} {cs : List GitCommit} {L : List GitDataRec} {r : GitDataRec}
    (hr : r ∈ (extractLoop rid g br now cs L).1) :
    ∃ c ∈ cs, r = mkGitDataRec rid g br now c := by
  induction cs generalizing L with
  | nil => simp [extractLoop] at hr
  | cons c cs ih =>
    by_cases hc : ledgerHas L rid c.hash
    · simp only [extractLoop, hc, if_true] at hr
      obtain ⟨c', hc', rfl⟩ := ih hr
      exact ⟨c', List.mem_cons_of_mem _ hc', rfl⟩
    · simp only [extractLoop, hc, Bool.false_eq_true, if_false, List.mem_cons] at hr
      rcases hr with rfl | hr
      · exact ⟨c, List.mem_cons_self _ _, rfl⟩
      · obtain ⟨c', hc', rfl⟩ := ih hr
        exact ⟨c', List.mem_cons_of_mem _ hc', rfl⟩

theorem extractLoop_has_all {rid : Nat} {g : GitRepoState} {br : Option String}
    {now : Int} {cs : List GitCommit} {L : List GitDataRec} {c : GitCommit}
    (hc : c ∈ cs) :
    ledgerHas (extractLoop rid g br now cs L).2 rid c.hash = true := by
  induction cs generalizing L with
  | nil => simp at hc
  | cons c0 cs ih =>
    rcases List.mem_cons.mp hc with rfl | hmem
    · by_cases h0 : ledgerHas L rid c.hash
      · simp only [extractLoop, h0, if_true]
        rw [extractLoop_ledger_eq]
        exact ledgerHas_append_left h0
      · simp only [extractLoop, h0, Bool.false_eq_true, if_false]
        rw [extractLoop_ledger_eq]
        apply ledgerHas_append_left
        simp [ledgerHas, List.any_append, mkGitDataRec]
    · by_cases h0 : ledgerHas L rid c0.hash
      · simpa [extractLoop, h0] using ih hmem
      · simp only [extractLoop, h0, Bool.false_eq_true, if_false]
        exact ih hmem

theorem extractLoop_all_present {rid : Nat} {g : GitRepoState} {br : Option String}
    {now : Int} {cs : List GitCommit} {L : List GitDataRec}
    (hall : ∀ c ∈ cs, ledgerHas L rid c.hash = true) :
    extractLoop rid g br now cs L = ([], L) := by
  induction cs with
  | nil => simp [extractLoop]
  | cons c cs ih =>
    have hc := hall c (List.mem_cons_self _ _)
    simp only [extractLoop, hc, if_true]
    exact ih (fun c' hc' => hall c' (List.mem_cons_of_mem _ hc'))

theorem findRepo_id {db : MongoDb} {rid : Nat} {repo : Repository}
    (h : findRepo db rid = some repo) : repo.id = rid := by
  have := List.find?_some h
  simpa using this

theorem find_save_aux {xs : List Repository} {rid : Nat} {repo r' : Repository}
    (h : xs.find? (fun r => r.id == rid) = some repo) (hid : r'.id = repo.id) :
    (xs.map (fun x => if x.id == r'.id then r' else x)).find? (fun r => r.id == rid) =
      some r' := by
  have hrid : repo.id = rid := by simpa using List.find?_some h
  induction xs with
  | nil => simp at h
  | cons x xs ih =>
    by_cases hx : x.id = rid
    · have hpx : (x.id == rid) = true := by simpa using hx
      simp only [List.find?, hpx] at h
      injection h with h
      subst h
      have hxr : (x.id == r'.id) = true := by simp [hid]
      have hpr : (r'.id == rid) = true := by simp [hid, hx]
      simp only [List.map_cons, hxr, if_true, List.find?, hpr]
    · have hpx : (x.id == rid) = false := by simpa using hx
      simp only [List.find?, hpx] at h
      have hxr : (x.id == r'.id) = false := by
        simp only [beq_eq_false_iff_ne, ne_eq]
        intro hc
        exact hx (by rw [hc, hid, hrid])
      simp only [List.map_cons, hxr, Bool.false_eq_true, if_false, List.find?, hpx]
      exact ih h

theorem findRepo_save {db : MongoDb} {rid : Nat} {repo r' : Repository}
    (h : findRepo db rid = some repo) (hid : r'.id = repo.id) :
    findRepo (saveRepo db r') rid = some r' := by
  unfold findRepo at h ⊢
  unfold saveRepo
  exact find_save_aux h hid

theorem saveRepo_gitData (db : MongoDb) (r : Repository) :
    (saveRepo db r).gitData = db.gitData := rfl

theorem fetchCommits_eq {db : MongoDb} {rid : Nat} {br : Option String} {fs : FsState}
    {g : GitRepoState} {now : Int} {repo : Repository}
    (hfind : findRepo db rid = some repo)
    (hprobe : statusOfProbe (probeOf fs) = RepoStatus.active)
    (hbr : branchOk g br = true) :
    fetchCommits db rid br fs g now =
      .ok ({ newCommits :=
               (extractLoop rid g br now
                 (sinceFilter repo.lastSyncedAt (logFor g br)) db.gitData).1,
             allCommits :=
               dbCommitsFor
                 (extractLoop rid g br now
                   (sinceFilter repo.lastSyncedAt (logFor g br)) db.gitData).2 rid br,
             totalCommits :=
               (dbCommitsFor
                 (extractLoop rid g br now
                   (sinceFilter repo.lastSyncedAt (logFor g br)) db.gitData).2 rid br).length,
             lastSyncedAt := some now,
             timeSinceLastSync := match repo.lastSyncedAt with
               | some d => formatTimeSince d now
               | none => "never synced",
             gitUserName := g.userName },
           saveRepo
             { saveRepo db (probedRepo repo now) with
               gitData :=
                 (extractLoop rid g br now
                   (sinceFilter repo.lastSyncedAt (logFor g br)) db.gitData).2 }
             (syncedRepo repo now)) := by
  unfold fetchCommits checkRepositoryStatus probedRepo syncedRepo
  rw [hfind, hprobe]
  simp [hbr, saveRepo_gitData]

theorem fetchCommits_ok_guards {db : MongoDb} {rid : Nat} {br : Option String}
    {fs : FsState} {g : GitRepoState} {now : Int} {res : FetchResult} {db' : MongoDb}
    (h : fetchCommits db rid br fs g now = .ok (res, db')) :
    ∃ repo, findRepo db rid = some repo ∧
      statusOfProbe (probeOf fs) = RepoStatus.active ∧ branchOk g br = true := by
  unfold fetchCommits checkRepositoryStatus at h
  cases hf : findRepo db rid with
  | none => rw [hf] at h; exact absurd h (by simp)
  | some repo =>
    rw [hf] at h
    by_cases hs : statusOfProbe (probeOf fs) = RepoStatus.active
    · by_cases hb : branchOk g br = true
      · exact ⟨repo, rfl, hs, hb⟩
      · simp [hs, hb] at h
    · simp [hs] at h

theorem fetchCommits_ok_elim {db : MongoDb} {rid : Nat} {br : Option String}
    {fs : FsState} {g : GitRepoState} {now : Int} {res : FetchResult} {db' : MongoDb}
    (h : fetchCommits db rid br fs g now = .ok (res, db')) :
    ∃ repo, findRepo db rid = some repo ∧
      statusOfProbe (probeOf fs) = RepoStatus.active ∧ branchOk g br = true ∧
      res.newCommits =
        (extractLoop rid g br now
          (sinceFilter repo.lastSyncedAt (logFor g br)) db.gitData).1 ∧
      res.lastSyncedAt = some now ∧
      db'.gitData =
        (extractLoop rid g br now
          (sinceFilter repo.lastSyncedAt (logFor g br)) db.gitData).2 ∧
      findRepo db' rid = some (syncedRepo repo now) := by
  obtain ⟨repo, hf, hs, hb⟩ := fetchCommits_ok_guards h
  rw [fetchCommits_eq hf hs hb] at h
  have hinj := Except.ok.inj h
  have hres : _ = res := congrArg Prod.fst hinj
  have hdb : _ = db' := congrArg Prod.snd hinj
  refine ⟨repo, hf, hs, hb, ?_, ?_, ?_, ?_⟩
  · rw [← hres]
  · rw [← hres]
  · rw [← hdb]
    rfl
  · rw [← hdb]
    have h1 : findRepo (saveRepo db (probedRepo repo now)) rid =
        some (probedRepo repo now) := findRepo_save hf rfl
    have h2 : findRepo
        ({ saveRepo db (probedRepo repo now) with
           gitData :=
             (extractLoop rid g br now
               (sinceFilter repo.lastSyncedAt (logFor g br)) db.gitData).2 }) rid =
        some (probedRepo repo now) := h1
    exact findRepo_save h2 rfl

/-! ### Claim theorems -/

/-- C1: extraction is idempotent per (commit hash, repository scope).  A
commit hash already present in the ledger for the repository is detected
(`GitDataModel.findOne {repoId, commitHash}`) and skipped, so a second
extraction run over unchanged git history creates zero new commit records
and leaves the ledger exactly as the first run left it (in particular the
total record count for the scope is unchanged).  The watermark hypothesis
`hw` says the pre-run watermark, when present, is not in the future of the
first run's clock. -/
theorem C1_extraction_idempotent
    (db : MongoDb) (rid : Nat) (br : Option String) (fs : FsState) (g : GitRepoState)
    (now1 now2 : Int) (repo : Repository) (res1 : FetchResult) (db1 : MongoDb)
    (hfind : findRepo db rid = some repo)
    (hw : ∀ t0, repo.lastSyncedAt = some t0 → t0 ≤ now1)
    (h1 : fetchCommits db rid br fs g now1 = .ok (res1, db1)) :
    ∃ res2 db2, fetchCommits db1 rid br fs g now2 = .ok (res2, db2) ∧
      res2.newCommits = [] ∧ db2.gitData = db1.gitData := by
  obtain ⟨repo', hf', hs, hb, hnew, hlast, hgd, hfind1⟩ := fetchCommits_ok_elim h1
  rw [hfind] at hf'
  injection hf' with hf'
  subst hf'
  have hall : ∀ c ∈ sinceFilter (syncedRepo repo now1).lastSyncedAt (logFor g br),
      ledgerHas db1.gitData rid c.hash = true := by
    intro c hc
    have hmem : c ∈ logFor g br ∧ now1 ≤ c.date := by
      simpa [sinceFilter, syncedRepo, List.mem_filter] using hc
    have hc1 : c ∈ sinceFilter repo.lastSyncedAt (logFor g br) := by
      cases hls : repo.lastSyncedAt with
      | none => simpa [sinceFilter] using hmem.1
      | some t0 =>
        have ht0 : t0 ≤ now1 := hw t0 hls
        simp only [sinceFilter, List.mem_filter]
        exact ⟨hmem.1, by simpa using le_trans ht0 hmem.2⟩
    rw [hgd]
    exact extractLoop_has_all hc1
  have hloop := @extractLoop_all_present rid g br now2 _ _ hall
  refine ⟨_, _, fetchCommits_eq hfind1 hs hb, ?_, ?_⟩
  · simp [hloop]
  · simp [hloop, saveRepo]

/-- C1 witness: a concrete repository with one commit; the first run
extracts it, and the theorem yields an empty second run with an unchanged
ledger. -/
theorem C1_witness :
    (findRepo dbW 1 = some repoW ∧
      fetchCommits dbW 1 none fsW gW 5 = .ok (res1W, db1W)) ∧
    (∃ res2 db2, fetchCommits db1W 1 none fsW gW 9 = .ok (res2, db2) ∧
      res2.newCommits = [] ∧ db2.gitData = db1W.gitData) :=
  ⟨⟨by decide, by decide⟩,
   C1_extraction_idempotent dbW 1 none fsW gW 5 9 repoW res1W db1W (by decide)
     (fun t0 h => nomatch h) (by decide)⟩

/-- C6: on completion of every successful extraction run the watermark is
advanced to the run's completion clock `now1` (both in the result and in the
stored repository document) — independent of any commit timestamp — and a
subsequent extraction run against the advanced watermark only ever returns
new commits whose timestamp is at or after `now1`: commits from before the
prior run's completion are never re-returned. -/
theorem C6_watermark_advancement
    (db : MongoDb) (rid : Nat) (br : Option String) (fs : FsState) (g : GitRepoState)
    (now1 : Int) (res1 : FetchResult) (db1 : MongoDb)
    (h1 : fetchCommits db rid br fs g now1 = .ok (res1, db1)) :
    res1.lastSyncedAt = some now1 ∧
    (∃ r', findRepo db1 rid = some r' ∧ r'.lastSyncedAt = some now1) ∧
    (∀ now2 res2 db2, fetchCommits db1 rid br fs g now2 = .ok (res2, db2) →
      ∀ rec ∈ res2.newCommits, now1 ≤ rec.date) := by
  obtain ⟨repo, hf, hs, hb, hnew, hlast, hgd, hfind1⟩ := fetchCommits_ok_elim h1
  refine ⟨hlast, ⟨_, hfind1, rfl⟩, ?_⟩
  intro now2 res2 db2 h2 rec hrec
  obtain ⟨repo2, hf2, _, _, hnew2, _, _, _⟩ := fetchCommits_ok_elim h2
  rw [hfind1] at hf2
  injection hf2 with hf2
  subst hf2
  rw [hnew2] at hrec
  obtain ⟨c, hc, rfl⟩ := extractLoop_new_mem hrec
  have hcd : now1 ≤ c.date := by
    have hm : c ∈ logFor g br ∧ now1 ≤ c.date := by
      simpa [sinceFilter, syncedRepo, List.mem_filter] using hc
    exact hm.2
  simpa [mkGitDataRec] using hcd

/-- C6 witness: concrete run at clock 5 over a single commit dated 3: the
watermark becomes 5 (not 3), and any later run only returns commits dated
at or after 5. -/
theorem C6_witness :
    fetchCommits dbW 1 none fsW gW 5 = .ok (res1W, db1W) ∧
    (res1W.lastSyncedAt = some 5 ∧
      (∃ r', findRepo db1W 1 = some r' ∧ r'.lastSyncedAt = some 5) ∧
      (∀ now2 res2 db2, fetchCommits db1W 1 none fsW gW now2 = .ok (res2, db2) →
        ∀ rec ∈ res2.newCommits, (5 : Int) ≤ rec.date)) :=
  ⟨by decide, C6_watermark_advancement dbW 1 none fsW gW 5 res1W db1W (by decide)⟩

/-- C2 counterexample: the extraction creation site (legacyServices.ts:179)
passes `synced: true`, so a freshly created commit record is stored
already-synced, not in the claimed `unsynced` (false) state: on a
repository with one new commit, the created record `recW` has
`synced = true`. -/
theorem C2_counterexample :
    fetchCommits dbW 1 none fsW gW 5 = .ok (res1W, db1W) ∧
    res1W.newCommits = [recW] ∧ recW.synced = true := by decide

/-- C2 (amended): commit records created by the legacy extractor have their
sync flag set to `synced` (true) already at creation (the schema default
`false` is overridden at the creation site); after creation, extraction
never rewrites an existing ledger record (the ledger only grows by
appending the newly created records), and the delivery flow's mark step
mutates only the `synced` field, monotonically (`false → true`, never
back). -/
theorem C2_sync_flag_lifecycle :
    (∀ db rid br fs g now res db', fetchCommits db rid br fs g now = .ok (res, db') →
      (∀ r ∈ res.newCommits, r.synced = true) ∧
      db'.gitData = db.gitData ++ res.newCommits) ∧
    (∀ (L : List LedgerCommit) (rid devId : String),
      List.Forall₂ (fun c c' =>
        c'.id = c.id ∧ c'.repoId = c.repoId ∧ c'.developerId = c.developerId ∧
        c'.projectId = c.projectId ∧ c'.branch = c.branch ∧ c'.message = c.message ∧
        c'.commitHash = c.commitHash ∧ c'.timestamp = c.timestamp ∧ c'.stats = c.stats ∧
        c'.changes = c.changes ∧ c'.parentCommit = c.parentCommit ∧
        c'.createdAt = c.createdAt ∧ (c.synced = true → c'.synced = true))
        L (markCommitsAsSynced L rid devId).2) := by
  constructor
  · intro db rid br fs g now res db' h
    obtain ⟨repo, hf, hs, hb, hnew, hlast, hgd, hfind1⟩ := fetchCommits_ok_elim h
    constructor
    · intro r hr
      rw [hnew] at hr
      obtain ⟨c, hc, rfl⟩ := extractLoop_new_mem hr
      simp [mkGitDataRec]
    · rw [hgd, hnew]
      exact extractLoop_ledger_eq rid g br now _ db.gitData
  · intro L rid devId
    show List.Forall₂ _ L (L.map _)
    rw [List.forall₂_map_right_iff]
    rw [List.forall₂_same]
    intro c _
    by_cases hp : (c.repoId = rid ∧ c.developerId = devId) ∧ c.synced = false
    · simp [hp]
    · simp [hp]

/-- C2 witness: the amended theorem applied to the concrete one-commit run
(the created record carries `synced = true`, the prior — empty — ledger is
preserved by appending) and to a concrete two-row ledger for the mark step. -/
theorem C2_witness :
    (fetchCommits dbW 1 none fsW gW 5 = .ok (res1W, db1W) ∧
      (∀ r ∈ res1W.newCommits, r.synced = true) ∧
      db1W.gitData = dbW.gitData ++ res1W.newCommits) ∧
    List.Forall₂ (fun c c' =>
        c'.id = c.id ∧ c'.repoId = c.repoId ∧ c'.developerId = c.developerId ∧
        c'.projectId = c.projectId ∧ c'.branch = c.branch ∧ c'.message = c.message ∧
        c'.commitHash = c.commitHash ∧ c'.timestamp = c.timestamp ∧ c'.stats = c.stats ∧
        c'.changes = c.changes ∧ c'.parentCommit = c.parentCommit ∧
        c'.createdAt = c.createdAt ∧ (c.synced = true → c'.synced = true))
      [ledW] (markCommitsAsSynced [ledW] "r1" "d1").2 :=
  ⟨⟨by decide,
    (C2_sync_flag_lifecycle.1 dbW 1 none fsW gW 5 res1W db1W (by decide)).1,
    (C2_sync_flag_lifecycle.1 dbW 1 none fsW gW 5 res1W db1W (by decide)).2⟩,
   C2_sync_flag_lifecycle.2 [ledW] "r1" "d1"⟩

/-- C3 counterexample: the probe consults no fingerprint.  A repository
whose recorded fingerprint is `"A"` while its path now hosts a different
repository (live fingerprint `"B"`) passes both probe checks, so the status
comes back `active`, not the claimed `moved`. -/
theorem C3_counterexample :
    repoF.repoFingerprint = some "A" ∧ fsB.fingerprint = "B" ∧
    Except.map (fun p => p.1.status) (checkRepositoryStatus dbF 1 fsB 9) =
      .ok RepoStatus.active ∧
    RepoStatus.active ≠ RepoStatus.moved := by decide

/-- C3 (amended): the status probe maps its outcome as: both checks pass →
`active` — regardless of any fingerprint mismatch, since no fingerprint is
consulted; path inaccessible (ENOENT) → `missing`; path accessible but
version-control metadata absent → `deleted`; any other probe error →
`moved`; and the probe result is always one of these four values. -/
theorem C3_status_probe_mapping :
    (∀ fs : FsState, fs.accessible = false →
      statusOfProbe (probeOf fs) = RepoStatus.missing) ∧
    (∀ fs : FsState, fs.accessible = true → fs.isGitRepo = false →
      statusOfProbe (probeOf fs) = RepoStatus.deleted) ∧
    (∀ fs : FsState, fs.accessible = true → fs.isGitRepo = true →
      statusOfProbe (probeOf fs) = RepoStatus.active) ∧
    statusOfProbe ProbeOutcome.errOther = RepoStatus.moved ∧
    (∀ o, statusOfProbe o = RepoStatus.active ∨ statusOfProbe o = RepoStatus.missing ∨
      statusOfProbe o = RepoStatus.moved ∨ statusOfProbe o = RepoStatus.deleted) ∧
    (∀ (db : MongoDb) (rid : Nat) (fs : FsState) (now : Int) (repo : Repository),
      findRepo db rid = some repo →
      Except.map (fun p => p.1.status) (checkRepositoryStatus db rid fs now) =
        .ok (statusOfProbe (probeOf fs))) := by
  refine ⟨?_, ?_, ?_, rfl, ?_, ?_⟩
  · intro fs h
    simp [probeOf, statusOfProbe, h]
  · intro fs h1 h2
    simp [probeOf, statusOfProbe, h1, h2]
  · intro fs h1 h2
    simp [probeOf, statusOfProbe, h1, h2]
  · intro o
    cases o <;> simp [statusOfProbe]
  · intro db rid fs now repo hfind
    unfold checkRepositoryStatus
    rw [hfind]
    rfl

/-- C3 witness: the mapping applied to concrete filesystem states (missing
path, path without VCS metadata, healthy path) and a concrete stored
repository. -/
theorem C3_witness :
    ((⟨false, false, "x"⟩ : FsState).accessible = false ∧
      statusOfProbe (probeOf ⟨false, false, "x"⟩) = RepoStatus.missing) ∧
    ((⟨true, false, "x"⟩ : FsState).accessible = true ∧
      (⟨true, false, "x"⟩ : FsState).isGitRepo = false ∧
      statusOfProbe (probeOf ⟨true, false, "x"⟩) = RepoStatus.deleted) ∧
    (findRepo dbF 1 = some repoF ∧
      Except.map (fun p => p.1.status) (checkRepositoryStatus dbF 1 fsB 9) =
        .ok (statusOfProbe (probeOf fsB))) :=
  ⟨⟨rfl, C3_status_probe_mapping.1 ⟨false, false, "x"⟩ rfl⟩,
   ⟨rfl, rfl, C3_status_probe_mapping.2.1 ⟨true, false, "x"⟩ rfl rfl⟩,
   ⟨by decide, C3_status_probe_mapping.2.2.2.2.2 dbF 1 fsB 9 repoF (by decide)⟩⟩

/-- C5 counterexample: the status probe is not read-only.  For a stored
repository whose recorded status is `missing` while its directory is
healthy, running `checkRepositoryStatus` saves the document back with
status `active` and a fresh `updatedAt`, so the durable store changes. -/
theorem C5_counterexample :
    checkRepositoryStatus dbM 1 fsW 9 =
      .ok (probedRepo repoM 9, ⟨[probedRepo repoM 9], []⟩) ∧
    (⟨[probedRepo repoM 9], []⟩ : MongoDb) ≠ dbM ∧
    (probedRepo repoM 9).status ≠ repoM.status ∧
    (probedRepo repoM 9).updatedAt ≠ repoM.updatedAt := by decide

/-- C5 (amended): the probe recomputes status from the live
filesystem/VCS probe (never trusting the prior value) but persists the
result: it overwrites the stored document's `status` with the probe result
and `updatedAt` with the current time, saving it back to the store; every
other field is left unchanged. -/
theorem C5_probe_recomputes_and_persists :
    ∀ (db : MongoDb) (rid : Nat) (fs : FsState) (now : Int) (repo : Repository),
      findRepo db rid = some repo →
      ∃ r', checkRepositoryStatus db rid fs now = .ok (r', saveRepo db r') ∧
        r'.status = statusOfProbe (probeOf fs) ∧ r'.updatedAt = now ∧
        r'.id = repo.id ∧ r'.name = repo.name ∧ r'.description = repo.description ∧
        r'.path = repo.path ∧ r'.permission = repo.permission ∧
        r'.repoFingerprint = repo.repoFingerprint ∧
        r'.lastSyncedAt = repo.lastSyncedAt ∧ r'.createdAt = repo.createdAt ∧
        findRepo (saveRepo db r') rid = some r' := by
  intro db rid fs now repo hfind
  refine ⟨{ repo with status := statusOfProbe (probeOf fs), updatedAt := now }, ?_,
    rfl, rfl, rfl, rfl, rfl, rfl, rfl, rfl, rfl, rfl, findRepo_save hfind rfl⟩
  unfold checkRepositoryStatus
  rw [hfind]

/-- C5 witness: the concrete `missing`-marked repository: the probe result
is persisted (status overwritten to `active`, `updatedAt` stamped to 9). -/
theorem C5_witness :
    findRepo dbM 1 = some repoM ∧
    (∃ r', checkRepositoryStatus dbM 1 fsW 9 = .ok (r', saveRepo dbM r') ∧
      r'.status = statusOfProbe (probeOf fsW) ∧ r'.updatedAt = 9 ∧
      r'.id = repoM.id ∧ r'.name = repoM.name ∧ r'.description = repoM.description ∧
      r'.path = repoM.path ∧ r'.permission = repoM.permission ∧
      r'.repoFingerprint = repoM.repoFingerprint ∧
      r'.lastSyncedAt = repoM.lastSyncedAt ∧ r'.createdAt = repoM.createdAt ∧
      findRepo (saveRepo dbM r') 1 = some r') :=
  ⟨by decide, C5_probe_recomputes_and_persists dbM 1 fsW 9 repoM (by decide)⟩

/-- C10 counterexample: registration alone keeps paths unique, but the
`PUT /repositories/:id` update route accepts a `path` field and performs no
uniqueness check: after two legitimate registrations (paths `pa`, `pb`),
updating the second record's path to `pa` leaves two repository records
sharing the path `pa` — refuting "no two repository records ever share the
same path". -/
theorem C10_counterexample :
    registerRepository ⟨[], []⟩ regIn1 fsW 0 1 = .ok (raW, ⟨[raW], []⟩) ∧
    registerRepository ⟨[raW], []⟩ regIn2 fsW 0 2 = .ok (rbW, ⟨[raW, rbW], []⟩) ∧
    updateRepository ⟨[raW, rbW], []⟩ 2 updPa = .ok (rbXW, ⟨[raW, rbXW], []⟩) ∧
    raW.path = rbXW.path ∧ raW ≠ rbXW := by decide

/-- C10 (amended): registration rejects a path that is already registered
(fails with the already-exists error, inserting nothing), a successful
registration appends exactly one record with status `active` and the
requested path, and registration alone preserves path-uniqueness of the
store — but the repository-update route can still set `path` without any
uniqueness check, so uniqueness is only guaranteed for stores mutated by
registration. -/
theorem C10_registration_path_unique :
    (∀ (db : MongoDb) (input : RegisterRepoInput) (fs : FsState) (now : Int) (newId : Nat),
      fs.accessible = true → fs.isGitRepo = true →
      (∃ r ∈ db.repos, r.path = input.path) →
      registerRepository db input fs now newId = .error .alreadyExists) ∧
    (∀ (db : MongoDb) (input : RegisterRepoInput) (fs : FsState) (now : Int) (newId : Nat)
      (r : Repository) (db' : MongoDb),
      registerRepository db input fs now newId = .ok (r, db') →
      r.status = RepoStatus.active ∧ r.path = input.path ∧
      db'.repos = db.repos ++ [r] ∧ (∀ r0 ∈ db.repos, r0.path ≠ input.path)) ∧
    (∀ (db : MongoDb) (input : RegisterRepoInput) (fs : FsState) (now : Int) (newId : Nat)
      (r : Repository) (db' : MongoDb),
      registerRepository db input fs now newId = .ok (r, db') →
      (db.repos.map Repository.path).Nodup → (db'.repos.map Repository.path).Nodup) := by
  have hok : ∀ (db : MongoDb) (input : RegisterRepoInput) (fs : FsState) (now : Int)
      (newId : Nat) (r : Repository) (db' : MongoDb),
      registerRepository db input fs now newId = .ok (r, db') →
      r.status = RepoStatus.active ∧ r.path = input.path ∧
      db'.repos = db.repos ++ [r] ∧ (∀ r0 ∈ db.repos, r0.path ≠ input.path) := by
    intro db input fs now newId r db' h
    unfold registerRepository at h
    by_cases ha : fs.accessible
    · by_cases hg : fs.isGitRepo
      · by_cases he : (db.repos.any (fun r => r.path == input.path)) = true
        · simp [ha, hg, he] at h
        · simp only [ha, hg, he, Bool.not_true, Bool.false_eq_true, if_false] at h
          have hinj := Except.ok.inj h
          have hr : _ = r := congrArg Prod.fst hinj
          have hdb : _ = db' := congrArg Prod.snd hinj
          refine ⟨by rw [← hr], by rw [← hr], by rw [← hdb, ← hr], ?_⟩
          intro r0 hr0 hpath
          exact he (List.any_eq_true.mpr ⟨r0, hr0, by simp [hpath]⟩)
      · simp [ha, hg] at h
    · simp [ha] at h
  refine ⟨?_, hok, ?_⟩
  · intro db input fs now newId ha hg ⟨r0, hr0, hpath⟩
    unfold registerRepository
    have he : (db.repos.any (fun r => r.path == input.path)) = true :=
      List.any_eq_true.mpr ⟨r0, hr0, by simp [hpath]⟩
    simp [ha, hg, he]
  · intro db input fs now newId r db' h hnd
    obtain ⟨_, hpath, hrepos, hall⟩ := hok db input fs now newId r db' h
    rw [hrepos]
    simp only [List.map_append, List.map_cons, List.map_nil]
    rw [List.nodup_append]
    refine ⟨hnd, List.nodup_singleton _, ?_⟩
    intro p hp hq
    simp only [List.mem_singleton] at hq
    obtain ⟨r0, hr0, hr0p⟩ := List.mem_map.mp hp
    exact hall r0 hr0 (by rw [hr0p, hq, hpath])

/-- C10 witness: registering path `pa` into a store that already holds a
record with path `pa` fails with the already-exists error; a successful
registration into the empty store yields an `active` record at the
requested path and preserves path uniqueness. -/
theorem C10_witness :
    (fsW.accessible = true ∧ fsW.isGitRepo = true ∧
      (∃ r ∈ (⟨[raW], []⟩ : MongoDb).repos, r.path = regIn1.path) ∧
      registerRepository ⟨[raW], []⟩ regIn1 fsW 0 2 = .error .alreadyExists) ∧
    (registerRepository ⟨[], []⟩ regIn1 fsW 0 1 = .ok (raW, ⟨[raW], []⟩) ∧
      raW.status = RepoStatus.active ∧ raW.path = regIn1.path ∧
      (⟨[raW], []⟩ : MongoDb).repos = (⟨[], []⟩ : MongoDb).repos ++ [raW]) ∧
    (((⟨[], []⟩ : MongoDb).repos.map Repository.path).Nodup →
      (((⟨[raW], []⟩ : MongoDb)).repos.map Repository.path).Nodup) :=
  ⟨⟨rfl, rfl, ⟨raW, by decide⟩,
    C10_registration_path_unique.1 ⟨[raW], []⟩ regIn1 fsW 0 2 rfl rfl
      ⟨raW, by decide⟩⟩,
   ⟨by decide,
    (C10_registration_path_unique.2.1 ⟨[], []⟩ regIn1 fsW 0 1 raW ⟨[raW], []⟩
      (by decide)).1,
    (C10_registration_path_unique.2.1 ⟨[], []⟩ regIn1 fsW 0 1 raW ⟨[raW], []⟩
      (by decide)).2.1,
    (C10_registration_path_unique.2.1 ⟨[], []⟩ regIn1 fsW 0 1 raW ⟨[raW], []⟩
      (by decide)).2.2.1⟩,
   C10_registration_path_unique.2.2 ⟨[], []⟩ regIn1 fsW 0 1 raW ⟨[raW], []⟩
     (by decide)⟩

/-- C4 counterexample: the delivery flow reads the unsynced set `[ledW]`,
delivers it, and then `markCommitsAsSynced` is invoked with only the
(repository, developer) scope — not the read identifiers — so the record
`ledW2` inserted by an interleaved extraction run between the read and the
mark is marked synced (mark count 2, not 1) although it was never
delivered. -/
theorem C4_counterexample :
    (syncFlowWithInterleave [ledW] "r1" "d1" [ledW2]).1 = [ledW] ∧
    (syncFlowWithInterleave [ledW] "r1" "d1" [ledW2]).2.1 = 2 ∧
    (syncFlowWithInterleave [ledW] "r1" "d1" [ledW2]).2.2 =
      [{ ledW with synced := true }, { ledW2 with synced := true }] ∧
    ledW2.commitHash ∉
      (syncFlowWithInterleave [ledW] "r1" "d1" [ledW2]).1.map LedgerCommit.commitHash := by
  decide

/-- C4 (amended): the mark-synced step marks every record that is unsynced
in the (repository, developer) scope at mark time — not just the set that
was read and delivered — so an unsynced record inserted by an interleaving
extraction run between the read and the mark is marked synced without ever
having been delivered. -/
theorem C4_mark_scope_overshoot :
    ∀ (db interleaved : List LedgerCommit) (rid devId : String) (c : LedgerCommit),
      c ∈ interleaved → c.repoId = rid → c.developerId = devId → c.synced = false →
      c.commitHash ∉ db.map LedgerCommit.commitHash →
      { c with synced := true } ∈ (syncFlowWithInterleave db rid devId interleaved).2.2 ∧
      c.commitHash ∉
        (syncFlowWithInterleave db rid devId interleaved).1.map LedgerCommit.commitHash := by
  intro db interleaved rid devId c hmem hrid hdev hsync hfresh
  constructor
  · show { c with synced := true } ∈
      ((db ++ interleaved).map (fun c =>
        if c.repoId == rid && c.developerId == devId && c.synced == false then
          { c with synced := true }
        else c))
    have hc : c ∈ db ++ interleaved := List.mem_append_right _ hmem
    have := List.mem_map_of_mem (fun c =>
      if c.repoId == rid && c.developerId == devId && c.synced == false then
        { c with synced := true }
      else c) hc
    simpa [hrid, hdev, hsync] using this
  · intro habs
    obtain ⟨x, hx, hxh⟩ := List.mem_map.mp habs
    have hxdb : x ∈ db := List.mem_of_mem_filter hx
    exact hfresh (by rw [← hxh]; exact List.mem_map_of_mem _ hxdb)

/-- C4 witness: the amended behaviour on the concrete two-row scenario —
the interleaved record `ledW2` ends up synced in the ledger though its hash
is absent from the delivered batch. -/
theorem C4_witness :
    (ledW2 ∈ [ledW2] ∧ ledW2.repoId = "r1" ∧ ledW2.developerId = "d1" ∧
      ledW2.synced = false ∧
      ledW2.commitHash ∉ [ledW].map LedgerCommit.commitHash) ∧
    ({ ledW2 with synced := true } ∈
        (syncFlowWithInterleave [ledW] "r1" "d1" [ledW2]).2.2 ∧
      ledW2.commitHash ∉
        (syncFlowWithInterleave [ledW] "r1" "d1" [ledW2]).1.map LedgerCommit.commitHash) :=
  ⟨⟨by decide, by decide, by decide, by decide, by decide⟩,
   C4_mark_scope_overshoot [ledW] [ledW2] "r1" "d1" ledW2 (by decide) (by decide)
     (by decide) (by decide) (by decide)⟩

/-- C8: a credential refresh replaces only the access credential and its
expiry.  On both the on-demand path (`checkAndRefreshSession`) and the
background-cadence path (`schedulerTick`), whatever session row is stored
after the call carries the original refresh credential, refresh expiry and
principal identity unchanged; and when a refresh actually fires
(access expired, refresh still valid, outbound call succeeded) the stored
row is exactly the original with only `accessToken`/`accessTokenExpiresAt`
replaced. -/
theorem C8_refresh_replaces_only_access
    (s : Session) (now : Int) (api : RefreshOutcome) :
    (∀ s', (checkAndRefreshSession (some s) now api).stored = some s' →
      s'.refreshToken = s.refreshToken ∧
      s'.refreshTokenExpiresAt = s.refreshTokenExpiresAt ∧ s'.userId = s.userId) ∧
    (∀ s', (schedulerTick (some s) now api).1 = some s' →
      s'.refreshToken = s.refreshToken ∧
      s'.refreshTokenExpiresAt = s.refreshTokenExpiresAt ∧ s'.userId = s.userId) ∧
    (∀ tok exp, api = .ok tok exp → s.accessTokenExpiresAt ≤ now →
      now < s.refreshTokenExpiresAt →
      (checkAndRefreshSession (some s) now api).stored =
        some { s with accessToken := tok, accessTokenExpiresAt := exp } ∧
      (schedulerTick (some s) now api).1 =
        some { s with accessToken := tok, accessTokenExpiresAt := exp }) := by
  refine ⟨?_, ?_, ?_⟩
  · intro s' h
    unfold checkAndRefreshSession at h
    by_cases h1 : s.accessTokenExpiresAt ≤ now
    · by_cases h2 : s.refreshTokenExpiresAt ≤ now
      · simp only [h1, h2, if_true] at h
        injection h with h
        subst h
        exact ⟨rfl, rfl, rfl⟩
      · cases api with
        | ok tok exp =>
          simp only [h1, h2, if_true, if_false] at h
          injection h with h
          subst h
          exact ⟨rfl, rfl, rfl⟩
        | fail =>
          simp only [h1, h2, if_true, if_false] at h
          injection h with h
          subst h
          exact ⟨rfl, rfl, rfl⟩
    · simp only [h1, if_false] at h
      injection h with h
      subst h
      exact ⟨rfl, rfl, rfl⟩
  · intro s' h
    unfold schedulerTick at h
    by_cases h1 : s.accessTokenExpiresAt ≤ now
    · by_cases h2 : s.refreshTokenExpiresAt ≤ now
      · simp only [h1, h2, if_true] at h
        injection h with h
        subst h
        exact ⟨rfl, rfl, rfl⟩
      · cases api with
        | ok tok exp =>
          simp only [h1, h2, if_true, if_false] at h
          injection h with h
          subst h
          exact ⟨rfl, rfl, rfl⟩
        | fail =>
          simp only [h1, h2, if_true, if_false] at h
          injection h with h
          subst h
          exact ⟨rfl, rfl, rfl⟩
    · simp only [h1, if_false] at h
      injection h with h
      subst h
      exact ⟨rfl, rfl, rfl⟩
  · intro tok exp hapi h1 h2
    subst hapi
    have h2' : ¬s.refreshTokenExpiresAt ≤ now := not_le.mpr h2
    constructor
    · unfold checkAndRefreshSession
      simp [h1, h2']
    · unfold schedulerTick
      simp [h1, h2']

/-- C8 witness: concrete session (access expires at 10, refresh at 20) at
clock 15 with a successful refresh returning token `nt` expiring at 30:
both paths store exactly the access-credential-replaced row, and the frame
facts hold for it. -/
theorem C8_witness :
    ((checkAndRefreshSession (some sessW) 15 apiW).stored = some sNewW ∧
      sNewW.refreshToken = sessW.refreshToken ∧
      sNewW.refreshTokenExpiresAt = sessW.refreshTokenExpiresAt ∧
      sNewW.userId = sessW.userId) ∧
    ((schedulerTick (some sessW) 15 apiW).1 = some sNewW ∧
      (checkAndRefreshSession (some sessW) 15 apiW).stored =
        some { sessW with accessToken := "nt", accessTokenExpiresAt := 30 }) :=
  ⟨⟨by decide,
    (C8_refresh_replaces_only_access sessW 15 apiW).1 sNewW (by decide)⟩,
   ⟨by decide,
    ((C8_refresh_replaces_only_access sessW 15 apiW).2.2 "nt" 30 rfl (by decide)
      (by decide)).1⟩⟩

/-- C9: when both the access credential and the refresh credential are
expired, every request for a valid credential fails fast with the
re-authentication error, makes zero outbound refresh calls and leaves the
stored row untouched; and a session whose access credential is still valid
is returned as-is, with zero refresh calls and the stored row untouched. -/
theorem C9_fully_expired_fails_fast
    (s : Session) (now : Int) (api : RefreshOutcome) :
    (s.accessTokenExpiresAt ≤ now → s.refreshTokenExpiresAt ≤ now →
      checkAndRefreshSession (some s) now api =
        ⟨.error .sessionExpired, some s, 0⟩) ∧
    (now < s.accessTokenExpiresAt →
      checkAndRefreshSession (some s) now api =
        ⟨.ok ⟨s.userId, s.accessToken⟩, some s, 0⟩) := by
  constructor
  · intro h1 h2
    unfold checkAndRefreshSession
    simp [h1, h2]
  · intro h1
    unfold checkAndRefreshSession
    simp [not_le.mpr h1]

/-- C9 witness: the concrete session at clock 25 (both credentials expired)
fails fast with zero refresh calls and an untouched row; at clock 5 (access
still valid) it is returned unchanged with zero refresh calls. -/
theorem C9_witness :
    (sessW.accessTokenExpiresAt ≤ 25 ∧ sessW.refreshTokenExpiresAt ≤ 25 ∧
      checkAndRefreshSession (some sessW) 25 apiW =
        ⟨.error .sessionExpired, some sessW, 0⟩) ∧
    ((5 : Int) < sessW.accessTokenExpiresAt ∧
      checkAndRefreshSession (some sessW) 5 apiW =
        ⟨.ok ⟨sessW.userId, sessW.accessToken⟩, some sessW, 0⟩) :=
  ⟨⟨by decide, by decide,
    (C9_fully_expired_fails_fast sessW 25 apiW).1 (by decide) (by decide)⟩,
   ⟨by decide, (C9_fully_expired_fails_fast sessW 5 apiW).2 (by decide)⟩⟩

theorem foldl_parseDiffLine_const {L : List (List Char)} {init : CommitStats}
    (h : ∀ l ∈ L, findSummary l = none ∧ findFileName [] l = none) :
    L.foldl parseDiffLine init = init := by
  induction L generalizing init with
  | nil => rfl
  | cons l L ih =>
    have hl := h l (List.mem_cons_self _ _)
    have hstep : parseDiffLine init l = init := by
      unfold parseDiffLine
      rw [hl.1, hl.2]
    rw [List.foldl_cons, hstep]
    exact ih (fun l' hl' => h l' (List.mem_cons_of_mem _ hl'))

/-- C7: the diff-summary parser is total and tolerant.  An aggregate line
whose insertion capture group is absent yields 0 insertions; one whose
deletion capture group is absent yields 0 deletions (the two groups are
independently optional); a line matching the per-file pattern — which by
construction is only consulted when the aggregate pattern does not match —
contributes its trimmed file name and leaves the counters alone; and an
input none of whose lines matches either pattern yields the all-zero
statistics (the parser never throws: it is a total function). -/
theorem C7_parser_total_and_tolerant :
    (∀ (acc : CommitStats) (line : List Char) (f : Nat) (od : Option Nat),
      findSummary line = some (f, none, od) →
      parseDiffLine acc line =
        { acc with filesChanged := f, insertions := 0, deletions := od.getD 0 }) ∧
    (∀ (acc : CommitStats) (line : List Char) (f : Nat) (oi : Option Nat),
      findSummary line = some (f, oi, none) →
      parseDiffLine acc line =
        { acc with filesChanged := f, insertions := oi.getD 0, deletions := 0 }) ∧
    (∀ (acc : CommitStats) (line : List Char) (name : List Char),
      findSummary line = none → findFileName [] line = some name →
      parseDiffLine acc line =
        { acc with fileNames := acc.fileNames ++ [String.mk (trimChars name)] }) ∧
    (∀ s : String,
      (∀ l ∈ splitLines s, findSummary l = none ∧ findFileName [] l = none) →
      parseDiffSummary s = ⟨0, 0, 0, []⟩) := by
  refine ⟨?_, ?_, ?_, ?_⟩
  · intro acc line f od h
    unfold parseDiffLine
    rw [h]
    rfl
  · intro acc line f oi h
    unfold parseDiffLine
    rw [h]
    rfl
  · intro acc line name h1 h2
    unfold parseDiffLine
    rw [h1, h2]
  · intro s h
    unfold parseDiffSummary
    exact foldl_parseDiffLine_const h

/-- C7 witness: concrete diff-summary lines — an aggregate line without an
insertion count, one without a deletion count, a per-file line, and a fully
unparseable input. -/
theorem C7_witness :
    (findSummary "1 file changed, 2 deletions(-)".toList = some (1, none, some 2) ∧
      parseDiffLine ⟨0, 0, 0, []⟩ "1 file changed, 2 deletions(-)".toList =
        ⟨1, 0, 2, []⟩) ∧
    (findSummary "3 files changed, 4 insertions(+)".toList = some (3, some 4, none) ∧
      parseDiffLine ⟨0, 0, 0, []⟩ "3 files changed, 4 insertions(+)".toList =
        ⟨3, 4, 0, []⟩) ∧
    (findSummary " pnpm-lock.yaml | 4 ++--".toList = none ∧
      findFileName [] " pnpm-lock.yaml | 4 ++--".toList =
        some " pnpm-lock.yaml".toList ∧
      parseDiffLine ⟨0, 0, 0, []⟩ " pnpm-lock.yaml | 4 ++--".toList =
        ⟨0, 0, 0, ["pnpm-lock.yaml"]⟩) ∧
    ((∀ l ∈ splitLines "no stats here\nat all", findSummary l = none ∧
        findFileName [] l = none) ∧
      parseDiffSummary "no stats here\nat all" = ⟨0, 0, 0, []⟩) :=
  ⟨⟨by decide,
    C7_parser_total_and_tolerant.1 ⟨0, 0, 0, []⟩ _ 1 (some 2) (by decide)⟩,
   ⟨by decide,
    C7_parser_total_and_tolerant.2.1 ⟨0, 0, 0, []⟩ _ 3 (some 4) (by decide)⟩,
   ⟨by decide, by decide,
    C7_parser_total_and_tolerant.2.2.1 ⟨0, 0, 0, []⟩ _ " pnpm-lock.yaml".toList
      (by decide) (by decide)⟩,
   ⟨by decide,
    C7_parser_total_and_tolerant.2.2.2 "no stats here\nat all" (by decide)⟩⟩

end SGE
